import Mathlib

/-
Verification development for the aptosAutoTrader bot (bot.mjs / src/index.mjs).

The paper-trading engine, the signal dedup gate and the on-chain submitter are
shallowly embedded below.  JavaScript numbers are modelled by the rationals ℚ
(the claims under scrutiny are about the exact decimal arithmetic the code
spells out: Math.floor(x*100)/100, linear PnL, Math.max(0, ·)); JavaScript
division by zero is modelled by Lean's total division on ℚ.  Position and user
records keep the source's field names.
-/

namespace AptosAutoTrader

/-- Side of a signal or position.  The source stores sides as uppercased
strings; per the data model only the two values LONG and SHORT occur. -/
inductive Side
  | LONG
  | SHORT
deriving DecidableEq, Repr

/-- The sign the source applies to the PnL of a closed position:
`position.side === 'LONG' ? 1 : -1` (src/index.mjs:311). -/
def sideSign : Side → ℚ
  | Side.LONG => 1
  | Side.SHORT => -1

/-- Rendering of a side as the string the source carries around. -/
def sideStr : Side → String
  | Side.LONG => "LONG"
  | Side.SHORT => "SHORT"

/-- An open paper position, as pushed by openPaperPosition
(src/index.mjs:330-337). -/
structure Position where
  symbol : String
  side : Side
  entry : ℚ
  leverage : ℚ
  collateral : ℚ
  ts : ℕ
deriving DecidableEq, Repr

/-- The per-subscriber record fields the paper engine touches
(src/index.mjs:231-243): virtual balance, open positions, leverage (risk),
allocation fraction and the two toggles. -/
structure User where
  paperUSDC : ℚ
  positions : List Position
  risk : ℚ
  alloc : Option ℚ
  auto : Bool
  monitor : Bool
deriving DecidableEq, Repr

/-- A parsed feed signal as produced by pickLatest (src/index.mjs:354-374). -/
structure Sig where
  symbol : String
  side : Side
  entry : ℚ
  stop_loss : ℚ
  take_profit : ℚ
  time : String
deriving DecidableEq, Repr

/-- Truncation to two decimals: `Math.floor(x * 100) / 100`. -/
def floor2 (x : ℚ) : ℚ := (⌊x * 100⌋ : ℚ) / 100

/-- Models String.prototype.toUpperCase for the ASCII symbol names the feed
carries (character-wise uppercasing). -/
def jsToUpper (s : String) : String := ⟨s.data.map Char.toUpper⟩

/-- Embeds closePosition (src/index.mjs:308-314): computes the linear PnL of
`position` at `closePrice`, credits collateral plus PnL to the balance clamped
at a floor of 0, and returns the PnL together with the updated user. -/
def closePosition (u : User) (position : Position) (closePrice : ℚ) : ℚ × User :=
  let notional := position.collateral * position.leverage
  let change := (closePrice - position.entry) / position.entry
  let pnl := sideSign position.side * notional * change
  (pnl, { u with paperUSDC := max 0 (u.paperUSDC + position.collateral + pnl) })

/-- The loop body of closeOppositePositions (src/index.mjs:315-324): walk the
position list in order, keeping positions on other symbols or with the same
side and closing the rest, accumulating kept positions and realized PnL. -/
def closeOppGo (symbol : String) (newSide : Side) (closePrice : ℚ) :
    List Position → List Position → ℚ → User → ℚ × List Position × User
  | [], keep, realized, u => (realized, keep, u)
  | p :: rest, keep, realized, u =>
    if p.symbol ≠ symbol ∨ p.side = newSide then
      closeOppGo symbol newSide closePrice rest (keep ++ [p]) realized u
    else
      let pu := closePosition u p closePrice
      closeOppGo symbol newSide closePrice rest keep (realized + pu.1) pu.2

/-- Embeds closeOppositePositions (src/index.mjs:315-324). -/
def closeOppositePositions (u : User) (symbol : String) (newSide : Side)
    (closePrice : ℚ) : ℚ × User :=
  let r := closeOppGo symbol newSide closePrice u.positions [] 0 u
  (r.1, { r.2.2 with positions := r.2.1 })

/-- Result of openPaperPosition: success with the collateral actually used, or
the insufficient-balance failure (src/index.mjs:328,338). -/
inductive OpenResult
  | ok (used : ℚ)
  | insufficient
deriving DecidableEq, Repr

/-- Embeds openPaperPosition (src/index.mjs:325-339): clamp the requested
collateral to `[0, paperUSDC]`, truncate to two decimals, fail if the result
is ≤ 0, otherwise debit the balance and append the new position (leverage is
the user's risk at open time, timestamp is the current clock `now`). -/
def openPaperPosition (u : User) (sig : Sig) (collateral : ℚ) (now : ℕ) :
    OpenResult × User :=
  let c := floor2 (max 0 (min collateral u.paperUSDC))
  if c ≤ 0 then (OpenResult.insufficient, u)
  else
    (OpenResult.ok c,
      { u with
        paperUSDC := u.paperUSDC - c,
        positions := u.positions ++
          [{ symbol := jsToUpper sig.symbol, side := sig.side, entry := sig.entry,
             leverage := u.risk, collateral := c, ts := now }] })

/- ===== Specification-side helpers used to state the claims ===== -/

/-- A position survives closeOppositePositions when it is on another symbol or
already on the new side (the branch condition at src/index.mjs:319). -/
def isKept (symbol : String) (newSide : Side) (p : Position) : Bool :=
  decide (p.symbol ≠ symbol ∨ p.side = newSide)

/-- The claim's PnL formula for closing `p` at `closePrice`:
(collateral × leverage) × ((closePrice − entry)/entry), signed +1 for LONG and
−1 for SHORT. -/
def pnlOf (p : Position) (closePrice : ℚ) : ℚ :=
  sideSign p.side * (p.collateral * p.leverage) * ((closePrice - p.entry) / p.entry)

/-- Total claimed PnL over a list of closed positions. -/
def sumPnl (l : List Position) (closePrice : ℚ) : ℚ :=
  (l.map (fun p => pnlOf p closePrice)).sum

/-- The claimed balance evolution: each close in turn sets the balance to
max(0, balance + collateral + pnl). -/
def balanceAfterCloses (bal : ℚ) (l : List Position) (closePrice : ℚ) : ℚ :=
  l.foldl (fun b p => max 0 (b + p.collateral + pnlOf p closePrice)) bal

lemma closePosition_eq (u : User) (p : Position) (px : ℚ) :
    closePosition u p px =
      (pnlOf p px, { u with paperUSDC := max 0 (u.paperUSDC + p.collateral + pnlOf p px) }) := by
  simp [closePosition, pnlOf]

lemma closeOppGo_spec (symbol : String) (newSide : Side) (closePrice : ℚ)
    (ps : List Position) : ∀ (keep : List Position) (realized : ℚ) (u : User),
    closeOppGo symbol newSide closePrice ps keep realized u =
      (realized + sumPnl (ps.filter (fun p => !(isKept symbol newSide p))) closePrice,
       keep ++ ps.filter (isKept symbol newSide),
       { u with paperUSDC := balanceAfterCloses u.paperUSDC (ps.filter (fun p => !(isKept symbol newSide p))) closePrice }) := by
  induction ps with
  | nil =>
    intro keep realized u
    simp [closeOppGo, sumPnl, balanceAfterCloses]
  | cons p rest ih =>
    intro keep realized u
    by_cases h : p.symbol ≠ symbol ∨ p.side = newSide
    · have hk : isKept symbol newSide p = true := by
        simp only [isKept, decide_eq_true_eq]
        exact h
      rw [closeOppGo, if_pos h, ih]
      simp [List.filter_cons, hk, sumPnl, balanceAfterCloses]
    · have hk : isKept symbol newSide p = false := by
        simp only [isKept, decide_eq_false_iff_not]
        exact h
      rw [closeOppGo, if_neg h, closePosition_eq, ih]
      simp [List.filter_cons, hk, sumPnl, balanceAfterCloses]
      ring

/- ===== floor2 arithmetic ===== -/

lemma floor2_le (x : ℚ) : floor2 x ≤ x := by
  have h : (⌊x * 100⌋ : ℚ) ≤ x * 100 := Int.floor_le _
  have h100 : (0 : ℚ) < 100 := by norm_num
  rw [floor2, div_le_iff₀ h100]
  linarith

lemma floor2_nonneg {x : ℚ} (h : 0 ≤ x) : 0 ≤ floor2 x := by
  have : (0 : ℤ) ≤ ⌊x * 100⌋ := Int.floor_nonneg.mpr (by positivity)
  have h' : (0 : ℚ) ≤ (⌊x * 100⌋ : ℚ) := by exact_mod_cast this
  rw [floor2]
  positivity

lemma floor2_le_zero_iff (x : ℚ) : floor2 x ≤ 0 ↔ x < 1 / 100 := by
  have h100 : (0 : ℚ) < 100 := by norm_num
  rw [floor2, div_le_iff₀ h100, zero_mul]
  constructor
  · intro h
    have h1 : ⌊x * 100⌋ < (1 : ℤ) := by exact_mod_cast lt_of_le_of_lt h (by norm_num : (0:ℚ) < 1)
    have h2 : x * 100 < ((1 : ℤ) : ℚ) := Int.floor_lt.mp h1
    have h3 : x * 100 < 1 := by exact_mod_cast h2
    linarith
  · intro h
    have hx : x * 100 < ((1 : ℤ) : ℚ) := by push_cast; linarith
    have h1 : ⌊x * 100⌋ < (1 : ℤ) := Int.floor_lt.mpr hx
    have h2 : ⌊x * 100⌋ ≤ (0 : ℤ) := by omega
    exact_mod_cast h2

lemma floor2_max_zero_le_zero_iff (m : ℚ) :
    floor2 (max 0 m) ≤ 0 ↔ floor2 m ≤ 0 := by
  rw [floor2_le_zero_iff, floor2_le_zero_iff, max_lt_iff]
  constructor
  · intro h
    exact h.2
  · intro h
    exact ⟨by norm_num, h⟩

lemma floor2_pos_max {m : ℚ} (h : 0 < floor2 m) : max 0 m = m := by
  have hm : ¬ m < 1 / 100 := by
    intro hc
    have := (floor2_le_zero_iff m).mpr hc
    linarith
  have : (0 : ℚ) ≤ m := by
    by_contra hc
    push_neg at hc
    exact hm (by linarith)
  exact max_eq_right this

lemma max_zero_eq_of_floor2_pos {m : ℚ} (h : 0 < floor2 (max 0 m)) : max 0 m = m := by
  rcases le_total 0 m with hm | hm
  · exact max_eq_right hm
  · exfalso
    rw [max_eq_left hm] at h
    simp [floor2] at h

/-- C1: closeOppositePositions closes exactly those open positions on `symbol`
whose side differs from `newSide`; the realized result is the sum over the
closed positions of pnl = (collateral × leverage) × ((closePrice − entry)/entry)
signed +1 for LONG and −1 for SHORT; the balance evolves by
max(0, balance + collateral + pnl) per closed position; every same-side or
other-symbol position stays open. -/
theorem closeOppositePositions_correct (u : User) (symbol : String)
    (newSide : Side) (closePrice : ℚ) :
    (closeOppositePositions u symbol newSide closePrice).1
        = sumPnl (u.positions.filter (fun p => !(isKept symbol newSide p))) closePrice
    ∧ (closeOppositePositions u symbol newSide closePrice).2.positions
        = u.positions.filter (isKept symbol newSide)
    ∧ (closeOppositePositions u symbol newSide closePrice).2.paperUSDC
        = balanceAfterCloses u.paperUSDC (u.positions.filter (fun p => !(isKept symbol newSide p))) closePrice := by
  have hs := closeOppGo_spec symbol newSide closePrice u.positions [] 0 u
  simp [closeOppositePositions, hs]

/-- C10: closeOppositePositions keeps every other-symbol and same-side
position byte-for-byte in its original relative order (the kept list is a
filter, hence a sublist, of the original), and besides the position list it
changes only paperUSDC: risk, alloc, auto and monitor are untouched. -/
theorem closeOppositePositions_frame (u : User) (symbol : String)
    (newSide : Side) (closePrice : ℚ) :
    (closeOppositePositions u symbol newSide closePrice).2.positions
        = u.positions.filter (isKept symbol newSide)
    ∧ List.Sublist ((closeOppositePositions u symbol newSide closePrice).2.positions) u.positions
    ∧ (closeOppositePositions u symbol newSide closePrice).2.risk = u.risk
    ∧ (closeOppositePositions u symbol newSide closePrice).2.alloc = u.alloc
    ∧ (closeOppositePositions u symbol newSide closePrice).2.auto = u.auto
    ∧ (closeOppositePositions u symbol newSide closePrice).2.monitor = u.monitor := by
  have hs := closeOppGo_spec symbol newSide closePrice u.positions [] 0 u
  refine ⟨?_, ?_, ?_, ?_, ?_, ?_⟩ <;>
    simp [closeOppositePositions, hs, List.filter_sublist]

/-- C2: openPaperPosition truncates min(requested, balance) to two decimals,
fails exactly when that amount is ≤ 0, and on success uses it as collateral:
it never exceeds the request, the balance is debited by it, and the appended
position snapshots the user's leverage (risk) at open time. -/
theorem openPaperPosition_spec (u : User) (sig : Sig) (collateral : ℚ) (now : ℕ) :
    ((openPaperPosition u sig collateral now).1 = OpenResult.insufficient
        ↔ floor2 (min collateral u.paperUSDC) ≤ 0)
    ∧ floor2 (min collateral u.paperUSDC) ≤ collateral
    ∧ (0 < floor2 (min collateral u.paperUSDC) →
        (openPaperPosition u sig collateral now).1
            = OpenResult.ok (floor2 (min collateral u.paperUSDC))
        ∧ (openPaperPosition u sig collateral now).2.paperUSDC
            = u.paperUSDC - floor2 (min collateral u.paperUSDC)
        ∧ (openPaperPosition u sig collateral now).2.positions
            = u.positions ++
              [{ symbol := jsToUpper sig.symbol, side := sig.side, entry := sig.entry,
                 leverage := u.risk, collateral := floor2 (min collateral u.paperUSDC),
                 ts := now }]) := by
  have hle : floor2 (min collateral u.paperUSDC) ≤ collateral :=
    le_trans (floor2_le _) (min_le_left _ _)
  by_cases hc : floor2 (max 0 (min collateral u.paperUSDC)) ≤ 0
  · have hm : floor2 (min collateral u.paperUSDC) ≤ 0 :=
      (floor2_max_zero_le_zero_iff _).mp hc
    refine ⟨?_, hle, ?_⟩
    · simp [openPaperPosition, hc, hm]
    · intro hpos
      exact absurd hm (not_le.mpr hpos)
  · push_neg at hc
    have hmax : max 0 (min collateral u.paperUSDC) = min collateral u.paperUSDC :=
      max_zero_eq_of_floor2_pos hc
    have hpos : 0 < floor2 (min collateral u.paperUSDC) := by
      rw [hmax] at hc
      exact hc
    refine ⟨?_, hle, ?_⟩
    · simp [openPaperPosition, hmax, hpos.not_le]
    · intro _
      refine ⟨?_, ?_, ?_⟩ <;> simp [openPaperPosition, hmax, hpos.not_le]

/-- C9: whenever the clamped-and-truncated collateral is ≤ 0 — in particular
for every negative requested collateral — openPaperPosition fails and returns
the account unchanged: the balance is not credited or debited and the
position list is not modified. -/
theorem openPaperPosition_rejects (u : User) (sig : Sig) (collateral : ℚ) (now : ℕ)
    (h : collateral < 0 ∨ floor2 (max 0 (min collateral u.paperUSDC)) ≤ 0) :
    openPaperPosition u sig collateral now = (OpenResult.insufficient, u) := by
  have hc : floor2 (max 0 (min collateral u.paperUSDC)) ≤ 0 := by
    rcases h with h | h
    · have h1 : min collateral u.paperUSDC ≤ collateral := min_le_left _ _
      have h2 : max 0 (min collateral u.paperUSDC) = 0 := max_eq_left (by linarith)
      rw [h2]
      simp [floor2]
    · exact h
  simp [openPaperPosition, hc]

/- ===== Sequences of paper-engine operations (balance-floor invariant) ===== -/

/-- One paper-engine mutation: an open (openPaperPosition) or a flip-close
(closeOppositePositions, which drives closePosition on each closed position). -/
inductive Op
  | openOp (sig : Sig) (collateral : ℚ) (now : ℕ)
  | closeOp (symbol : String) (newSide : Side) (closePrice : ℚ)

/-- Apply one operation to the account, keeping only the mutated user. -/
def applyOp (u : User) : Op → User
  | Op.openOp sig c now => (openPaperPosition u sig c now).2
  | Op.closeOp symbol newSide closePrice =>
      (closeOppositePositions u symbol newSide closePrice).2

/-- Run a finite sequence of opens and closes, as the poll loop does over
successive signals. -/
def runOps (u : User) (ops : List Op) : User := ops.foldl applyOp u

lemma balanceAfterCloses_nonneg (l : List Position) (px : ℚ) :
    ∀ bal : ℚ, 0 ≤ bal → 0 ≤ balanceAfterCloses bal l px := by
  induction l with
  | nil => intro bal h; exact h
  | cons p rest ih =>
    intro bal _
    simp only [balanceAfterCloses, List.foldl_cons] at *
    exact ih _ (le_max_left _ _)

lemma openPaperPosition_balance_nonneg (u : User) (sig : Sig) (c : ℚ) (now : ℕ)
    (h : 0 ≤ u.paperUSDC) : 0 ≤ ((openPaperPosition u sig c now).2).paperUSDC := by
  by_cases hc : floor2 (max 0 (min c u.paperUSDC)) ≤ 0
  · simp [openPaperPosition, hc, h]
  · push_neg at hc
    have h3 : max 0 (min c u.paperUSDC) ≤ u.paperUSDC := max_le h (min_le_right _ _)
    have h4 : floor2 (max 0 (min c u.paperUSDC)) ≤ u.paperUSDC :=
      le_trans (floor2_le _) h3
    simp [openPaperPosition, hc.not_le]
    linarith

lemma closeOpp_balance_nonneg (u : User) (symbol : String) (newSide : Side)
    (px : ℚ) (h : 0 ≤ u.paperUSDC) :
    0 ≤ ((closeOppositePositions u symbol newSide px).2).paperUSDC := by
  have hs := closeOppGo_spec symbol newSide px u.positions [] 0 u
  simp [closeOppositePositions, hs]
  exact balanceAfterCloses_nonneg _ _ _ h

/-- C8: starting from a non-negative paper balance, no finite sequence of
opens (openPaperPosition) and flip-closes (closeOppositePositions /
closePosition) ever drives the balance negative: opens debit at most the
current balance and closes credit with a floor of 0. -/
theorem runOps_balance_nonneg (ops : List Op) : ∀ u : User,
    0 ≤ u.paperUSDC → 0 ≤ (runOps u ops).paperUSDC := by
  induction ops with
  | nil => intro u h; exact h
  | cons op rest ih =>
    intro u h
    simp only [runOps, List.foldl_cons] at *
    cases op with
    | openOp sig c now =>
      exact ih _ (openPaperPosition_balance_nonneg u sig c now h)
    | closeOp symbol newSide px =>
      exact ih _ (closeOpp_balance_nonneg u symbol newSide px h)

/- ===== closeAll (modelled from the spec) ===== -/

/-- Does the lookup resolve a current price for this position's symbol? -/
def hasPrice (priceLookup : String → Option ℚ) (p : Position) : Bool :=
  (priceLookup p.symbol).isSome

/-- PnL of a position at the price the lookup resolves for its symbol. -/
def pnlAt (priceLookup : String → Option ℚ) (p : Position) : ℚ :=
  pnlOf p ((priceLookup p.symbol).getD 0)

/-- Modelled from the spec: the repository invokes closeAllPositions at
src/index.mjs:575 but contains no definition of it anywhere; the loop body of
§4.2's closeAll contract is modelled instead — walk the open positions, close
(via the source's closePosition) every position whose symbol resolves to a
current price through `priceLookup`, and keep every position whose symbol has
none. -/
def closeAllGo (priceLookup : String → Option ℚ) :
    List Position → List Position → ℚ → User → ℚ × List Position × User
  | [], keep, realized, u => (realized, keep, u)
  | p :: rest, keep, realized, u =>
    match priceLookup p.symbol with
    | none => closeAllGo priceLookup rest (keep ++ [p]) realized u
    | some px =>
      let pu := closePosition u p px
      closeAllGo priceLookup rest keep (realized + pu.1) pu.2

/-- Modelled from the spec: closeAll(account, priceLookup) → realizedPnL,
closing every position with a resolvable current price and leaving the rest
open. -/
def closeAllPositions (u : User) (priceLookup : String → Option ℚ) : ℚ × User :=
  let r := closeAllGo priceLookup u.positions [] 0 u
  (r.1, { r.2.2 with positions := r.2.1 })

lemma closeAllGo_spec (priceLookup : String → Option ℚ) (ps : List Position) :
    ∀ (keep : List Position) (realized : ℚ) (u : User),
    closeAllGo priceLookup ps keep realized u =
      (realized + ((ps.filter (hasPrice priceLookup)).map (pnlAt priceLookup)).sum,
       keep ++ ps.filter (fun p => !(hasPrice priceLookup p)),
       { u with paperUSDC := (ps.filter (hasPrice priceLookup)).foldl (fun b p => max 0 (b + p.collateral + pnlAt priceLookup p)) u.paperUSDC }) := by
  induction ps with
  | nil =>
    intro keep realized u
    simp [closeAllGo]
  | cons p rest ih =>
    intro keep realized u
    cases hp : priceLookup p.symbol with
    | none =>
      have hb : hasPrice priceLookup p = false := by
        simp [hasPrice, hp]
      rw [closeAllGo, hp, ih]
      simp [List.filter_cons, hb]
    | some px =>
      have hb : hasPrice priceLookup p = true := by
        simp [hasPrice, hp]
      have hpnl : pnlAt priceLookup p = pnlOf p px := by
        simp [pnlAt, hp]
      rw [closeAllGo, hp]
      dsimp only
      rw [closePosition_eq]
      dsimp only
      rw [ih]
      simp [List.filter_cons, hb, hpnl]
      ring

/-- C6: closeAll closes exactly the open positions whose symbol resolves to a
current price via the lookup (with the source's closePosition balance
semantics), returns the total realized PnL over those closes, and leaves
every position without a current price open and unchanged. -/
theorem closeAllPositions_correct (u : User) (priceLookup : String → Option ℚ) :
    (closeAllPositions u priceLookup).1
        = ((u.positions.filter (hasPrice priceLookup)).map (pnlAt priceLookup)).sum
    ∧ (closeAllPositions u priceLookup).2.positions
        = u.positions.filter (fun p => !(hasPrice priceLookup p))
    ∧ (closeAllPositions u priceLookup).2.paperUSDC
        = (u.positions.filter (hasPrice priceLookup)).foldl (fun b p => max 0 (b + p.collateral + pnlAt priceLookup p)) u.paperUSDC := by
  have hs := closeAllGo_spec priceLookup u.positions [] 0 u
  simp [closeAllPositions, hs]

/- ===== The dedup gate ===== -/

/-- Renders a rational the way the source's template literal renders the JS
number for the integral values exercised here; non-integral rationals are
rendered as num/den. -/
def qStr (q : ℚ) : String :=
  if q.den = 1 then toString q.num else toString q.num ++ "/" ++ toString q.den

/-- Embeds feedKey (src/index.mjs:381): the dedup key string
symbol-time-side-entry. -/
def feedKey (s : Sig) : String :=
  s.symbol ++ "-" ++ s.time ++ "-" ++ sideStr s.side ++ "-" ++ qStr s.entry

/-- Embeds the dedup gate at the head of handleNewSignalPack
(src/index.mjs:637-640) for a non-null candidate: return early (drop) iff the
candidate's key equals the stored last key, otherwise commit the new key and
accept it for fan-out.  Returns (accepted, stored key afterwards). -/
def gateStep (lastFeedKey : Option String) (latest : Sig) : Bool × Option String :=
  if lastFeedKey = some (feedKey latest) then (false, lastFeedKey)
  else (true, some (feedKey latest))

/-- C7: once S1 has been accepted and its key committed, any S2 whose dedup
4-tuple renders to the same key string is judged not-new by the gate and is
not dispatched. -/
theorem feedKey_dedup (st : Option String) (s1 s2 : Sig)
    (hkey : feedKey s1 = feedKey s2)
    (hacc : (gateStep st s1).1 = true) :
    (gateStep (gateStep st s1).2 s2).1 = false := by
  unfold gateStep at *
  by_cases h : st = some (feedKey s1)
  · simp [h] at hacc
  · simp [h, ← hkey]

/-- C5 amended (also the general drop law): the gate stores exactly one
last-accepted key and drops a candidate iff its key equals that stored key;
any candidate whose key differs — even an older, previously superseded signal
— is accepted for fan-out and its key committed. -/
theorem gateStep_drop_iff (lastFeedKey : Option String) (s : Sig) :
    ((gateStep lastFeedKey s).1 = false ↔ lastFeedKey = some (feedKey s))
    ∧ ((gateStep lastFeedKey s).1 = true →
        (gateStep lastFeedKey s).2 = some (feedKey s)) := by
  unfold gateStep
  by_cases h : lastFeedKey = some (feedKey s) <;> simp [h]

/-- An older signal (earlier observedAt) on another symbol. -/
def c5older : Sig :=
  { symbol := "ETH", side := Side.SHORT, entry := 50, stop_loss := 0,
    take_profit := 0, time := "2025-08-24T09:00:00Z" }

/-- The newer signal whose key the gate last committed. -/
def c5newer : Sig :=
  { symbol := "BTC", side := Side.LONG, entry := 100, stop_loss := 0,
    take_profit := 0, time := "2025-08-24T11:00:00Z" }

/-- C5 counterexample: with the newer signal's key committed as the single
last-accepted value, an older signal (earlier observedAt, key observed before
and never individually processed) is NOT dropped: the gate accepts it for
fan-out and overwrites the stored key with the stale one. -/
theorem gate_stale_accept_counterexample :
    c5older.time.data < c5newer.time.data
    ∧ feedKey c5older ≠ feedKey c5newer
    ∧ (gateStep (some (feedKey c5newer)) c5older).1 = true
    ∧ (gateStep (some (feedKey c5newer)) c5older).2 = some (feedKey c5older) := by
  decide

/- ===== The on-chain submitter ===== -/

/-- The remote entry-point call shapes the spec lists (§6): the 8-argument
signal_vault::post_signal shape the source builds, and the reduced 2- and
3-argument shapes. -/
inductive CallVariant
  | eightArg
  | twoArg
  | threeArg
deriving DecidableEq, Repr

/-- Embeds the source's postSignal_user (src/index.mjs:208-228): it encrypts
the payload, builds one signal_vault::post_signal call carrying exactly the
8 arguments (agent address, stored hash, event hash, ciphertext, iv, aad,
auth tag, unix seconds) and submits it once via tx.  `accepts v i` abstracts
whether the remote ledger accepts attempt number `i` of call shape `v`.  The
result is the success flag of that single attempt together with the attempt
trace. -/
def postSignal_user (accepts : CallVariant → ℕ → Bool) :
    Bool × List (CallVariant × ℕ) :=
  (accepts CallVariant.eightArg 0, [(CallVariant.eightArg, 0)])

/-- Embeds the per-subscriber on-chain post inside handleNewSignalPack
(src/index.mjs:686-697): each subscriber's submission is wrapped in try/catch,
so every subscriber produces an outcome and a failed submission never prevents
the loop from reaching the next subscriber. -/
def dispatchPosts (subs : List (CallVariant → ℕ → Bool)) :
    List (Bool × List (CallVariant × ℕ)) :=
  subs.map postSignal_user

/-- Stated from the spec's words (the refinement target, deliberately not from
the source): retry a single call shape starting at attempt index `i` with
`fuel` attempts remaining, stopping at the first accepted attempt and
recording the trace. -/
def specTryVariantFrom (accepts : CallVariant → ℕ → Bool) (v : CallVariant)
    (i : ℕ) : ℕ → Bool × List (CallVariant × ℕ)
  | 0 => (false, [])
  | fuel + 1 =>
    if accepts v i then (true, [(v, i)])
    else
      let r := specTryVariantFrom accepts v (i + 1) fuel
      (r.1, (v, i) :: r.2)

/-- Stated from the spec's words: try the call shapes in the given priority
order, each retried up to 3 attempts, falling through to the next shape when
one is exhausted. -/
def specSubmitList (accepts : CallVariant → ℕ → Bool) :
    List CallVariant → Bool × List (CallVariant × ℕ)
  | [] => (false, [])
  | v :: vs =>
    let r := specTryVariantFrom accepts v 0 3
    if r.1 then r
    else
      let r2 := specSubmitList accepts vs
      (r2.1, r.2 ++ r2.2)

/-- The claimed submitter: 8-argument first, then 2-argument, then
3-argument, each retried up to 3 attempts. -/
def specSubmit (accepts : CallVariant → ℕ → Bool) : Bool × List (CallVariant × ℕ) :=
  specSubmitList accepts
    [CallVariant.eightArg, CallVariant.twoArg, CallVariant.threeArg]

/-- A remote ledger that rejects the 8-argument shape but accepts the reduced
2-argument shape on every attempt. -/
def acceptsTwoOnly : CallVariant → ℕ → Bool :=
  fun v _ => v == CallVariant.twoArg

/-- C4 counterexample: against a ledger accepting only the 2-argument shape,
the claimed submitter (8-arg, then 2-arg, then 3-arg, each retried up to 3
attempts) succeeds on the 2-argument fallback, but the code performs exactly
one attempt of the 8-argument shape and fails: it neither retries nor falls
through to the other shapes, so its attempt trace is not the claimed one. -/
theorem submitter_counterexample :
    (specSubmit acceptsTwoOnly).1 = true
    ∧ (postSignal_user acceptsTwoOnly).1 = false
    ∧ (postSignal_user acceptsTwoOnly).2 = [(CallVariant.eightArg, 0)]
    ∧ (postSignal_user acceptsTwoOnly).2 ≠ (specSubmit acceptsTwoOnly).2 := by
  decide

/-- C4 amended: every envelope submission makes exactly one attempt, of the
8-argument entry point only (the spec's retry scheme degenerated to retry
bound 1 and the 8-argument shape alone), succeeding iff the remote accepts
that first attempt; a failure is caught inside the per-subscriber loop, so
every subscriber of the cycle still yields an outcome and the cycle
continues. -/
theorem submitter_single_attempt (accepts : CallVariant → ℕ → Bool)
    (subs : List (CallVariant → ℕ → Bool)) :
    postSignal_user accepts = specTryVariantFrom accepts CallVariant.eightArg 0 1
    ∧ (postSignal_user accepts).2 = [(CallVariant.eightArg, 0)]
    ∧ ((postSignal_user accepts).1 = true ↔ accepts CallVariant.eightArg 0 = true)
    ∧ (dispatchPosts subs).length = subs.length := by
  refine ⟨?_, rfl, Iff.rfl, ?_⟩
  · by_cases h : accepts CallVariant.eightArg 0 = true <;>
      simp [postSignal_user, specTryVariantFrom, h]
  · simp [dispatchPosts]

/- ===== The auto-trade flip scenario ===== -/

/-- Embeds the per-user auto-trade step of handleNewSignalPack
(src/index.mjs:680-682): close opposite positions at the signal's entry
price, size the fresh collateral as floor2(balance × alloc) after that close,
then open the new paper position; users without an allocation are skipped
(src/index.mjs:661-666). -/
def autoTradeStep (u : User) (latest : Sig) (now : ℕ) :
    Option (ℚ × OpenResult × User) :=
  match u.alloc with
  | none => none
  | some alloc =>
    let ru := closeOppositePositions u latest.symbol latest.side latest.entry
    let collateral := floor2 (ru.2.paperUSDC * alloc)
    let r := openPaperPosition ru.2 latest collateral now
    some (ru.1, r.1, r.2)

/-- The spec scenario's starting account: balance 10000, allocation 0.25,
leverage 5. -/
def u0C3 : User :=
  { paperUSDC := 10000, positions := [], risk := 5, alloc := some (1/4),
    auto := true, monitor := false }

/-- The scenario's first signal: LONG BTC at entry 100. -/
def sigLongC3 : Sig :=
  { symbol := "BTC", side := Side.LONG, entry := 100, stop_loss := 0,
    take_profit := 0, time := "2025-08-24T10:00:00Z" }

/-- The scenario's second signal: SHORT BTC at entry 90. -/
def sigShortC3 : Sig :=
  { symbol := "BTC", side := Side.SHORT, entry := 90, stop_loss := 0,
    take_profit := 0, time := "2025-08-24T11:00:00Z" }

/-- Outcome of processing the LONG signal. -/
def c3step1 : ℚ × OpenResult × User :=
  (autoTradeStep u0C3 sigLongC3 0).getD (0, OpenResult.insufficient, u0C3)

/-- The account after the LONG open. -/
def c3u1 : User := c3step1.2.2

/-- The close half of processing the SHORT signal (the state the claim speaks
about: just before the new SHORT is opened). -/
def c3close2 : ℚ × User :=
  closeOppositePositions c3u1 sigShortC3.symbol sigShortC3.side sigShortC3.entry

lemma jsToUpper_BTC : jsToUpper "BTC" = "BTC" := rfl

lemma c3step1_eval :
    c3step1 =
      (0, OpenResult.ok 2500,
        { paperUSDC := 7500,
          positions := [{ symbol := "BTC", side := Side.LONG, entry := 100,
                          leverage := 5, collateral := 2500, ts := 0 }],
          risk := 5, alloc := some (1/4), auto := true, monitor := false }) := by
  have e1 : floor2 ((10000 : ℚ) * (1 / 4)) = 2500 := by
    rw [floor2]
    norm_num
  have e2 : max (0 : ℚ) (min (2500 : ℚ) 10000) = 2500 := by
    rw [min_def, max_def]
    norm_num
  have e3 : floor2 (2500 : ℚ) = 2500 := by
    rw [floor2]
    norm_num
  simp only [c3step1, autoTradeStep, u0C3, sigLongC3, closeOppositePositions,
    closeOppGo, openPaperPosition, jsToUpper_BTC, e1, e2, e3, Option.getD_some]
  rw [if_neg (by norm_num : ¬ ((2500 : ℚ) ≤ 0))]
  norm_num

lemma c3u1_eval :
    c3u1 =
      { paperUSDC := 7500,
        positions := [{ symbol := "BTC", side := Side.LONG, entry := 100,
                        leverage := 5, collateral := 2500, ts := 0 }],
        risk := 5, alloc := some (1/4), auto := true, monitor := false } := by
  rw [c3u1, c3step1_eval]

lemma c3close2_eval :
    c3close2 =
      (-1250,
        { paperUSDC := 8750, positions := [], risk := 5,
          alloc := some (1/4), auto := true, monitor := false }) := by
  simp only [c3close2, c3u1_eval, sigShortC3, closeOppositePositions, closeOppGo]
  rw [if_neg (by decide : ¬ (("BTC" : String) ≠ "BTC" ∨ Side.LONG = Side.SHORT))]
  simp only [closePosition, sideSign, closeOppGo]
  have e4 : (1 : ℚ) * (2500 * 5) * ((90 - 100) / 100) = -1250 := by norm_num
  have e5 : max (0 : ℚ) (7500 + 2500 + -1250) = 8750 := by
    rw [max_def]
    norm_num
  norm_num [e4, e5, max_def]

/-- C3 counterexample: in the spec's scenario (balance 10000, allocation 0.25,
leverage 5, LONG BTC @100 then SHORT BTC @90) the code opens with collateral
2500.00 leaving 7500.00 as claimed, but closing the LONG at 90 realizes
pnl = −1250.00 (a LONG closed below entry loses), leaving balance 8750.00
before the new SHORT — not +1250.00 and 11250.00 as claimed. -/
theorem flipScenario_counterexample :
    c3step1.2.1 = OpenResult.ok 2500
    ∧ c3u1.paperUSDC = 7500
    ∧ c3close2.1 = -1250
    ∧ c3close2.2.paperUSDC = 8750
    ∧ c3close2.1 ≠ 1250
    ∧ c3close2.2.paperUSDC ≠ 11250 := by
  simp only [c3step1_eval, c3u1_eval, c3close2_eval]
  norm_num

/-- C3 amended: processing the LONG BTC signal at 100 opens a position with
collateral 2500.00 leaving balance 7500.00; the subsequent SHORT BTC signal at
90 realizes pnl = (+1)×(2500×5)×((90−100)/100) = −1250.00 on closing the LONG,
giving balance 7500 + 2500 − 1250 = 8750.00 before the new SHORT position is
opened. -/
theorem flipScenario_amended :
    c3step1.1 = 0
    ∧ c3step1.2.1 = OpenResult.ok 2500
    ∧ c3u1.paperUSDC = 7500
    ∧ c3close2.1 = 1 * (2500 * 5) * ((90 - 100) / 100)
    ∧ c3close2.2.paperUSDC = 7500 + 2500 + -1250 := by
  simp only [c3step1_eval, c3u1_eval, c3close2_eval]
  norm_num

/- ===== Concrete fixtures and witnesses ===== -/

/-- A concrete signal for witness instantiations. -/
def sigW : Sig :=
  { symbol := "BTC", side := Side.LONG, entry := 100, stop_loss := 0,
    take_profit := 0, time := "2025-08-24T10:00:00Z" }

/-- A concrete account for witness instantiations. -/
def uW : User :=
  { paperUSDC := 1000, positions := [], risk := 5, alloc := some (1/4),
    auto := true, monitor := false }

/-- Witness for C2: requesting 300 of a 1000 balance succeeds and uses
exactly 300. -/
theorem openPaperPosition_spec_witness :
    0 < floor2 (min 300 uW.paperUSDC)
    ∧ (openPaperPosition uW sigW 300 5).1
        = OpenResult.ok (floor2 (min 300 uW.paperUSDC)) := by
  have h : floor2 (min 300 uW.paperUSDC) = 300 := by
    rw [show min (300 : ℚ) uW.paperUSDC = 300 by rw [uW, min_def]; norm_num, floor2]
    norm_num
  refine ⟨by rw [h]; norm_num, ?_⟩
  exact ((openPaperPosition_spec uW sigW 300 5).2.2 (by rw [h]; norm_num)).1

/-- Witness for C9: a negative request of −5 is rejected and the account is
returned unchanged. -/
theorem openPaperPosition_rejects_witness :
    ((-5 : ℚ) < 0 ∨ floor2 (max 0 (min (-5) uW.paperUSDC)) ≤ 0)
    ∧ openPaperPosition uW sigW (-5) 0 = (OpenResult.insufficient, uW) :=
  ⟨Or.inl (by decide), openPaperPosition_rejects uW sigW (-5) 0 (Or.inl (by decide))⟩

/-- A concrete operation sequence: open 300 LONG BTC, then flip-close at 90. -/
def opsW : List Op :=
  [Op.openOp sigW 300 0, Op.closeOp "BTC" Side.SHORT 90]

/-- Witness for C8: the invariant instantiated on a concrete open/close run. -/
theorem runOps_balance_nonneg_witness :
    0 ≤ uW.paperUSDC ∧ 0 ≤ (runOps uW opsW).paperUSDC :=
  ⟨by decide, runOps_balance_nonneg opsW uW (by decide)⟩

/-- A committed signal for the C7 witness. -/
def c7s1 : Sig :=
  { symbol := "BTC", side := Side.LONG, entry := 100, stop_loss := 0,
    take_profit := 0, time := "2025-08-24T10:00:00Z" }

/-- A distinct signal (different stop loss) whose dedup 4-tuple renders to the
same key string as c7s1. -/
def c7s2 : Sig := { c7s1 with stop_loss := 42 }

/-- Witness for C7: two distinct signals with equal keys; after the first is
committed the gate judges the second not-new. -/
theorem feedKey_dedup_witness :
    c7s1 ≠ c7s2
    ∧ feedKey c7s1 = feedKey c7s2
    ∧ (gateStep none c7s1).1 = true
    ∧ (gateStep (gateStep none c7s1).2 c7s2).1 = false :=
  ⟨by decide, by decide, by decide,
    feedKey_dedup none c7s1 c7s2 (by decide) (by decide)⟩

end AptosAutoTrader
